import Mathlib

/-!
Verification development for the regularized-evolution search script
`src/scripts/create_run_data.py` of the time-bench repository.

The script's pure algorithmic core (random specification generation, mutation,
tournament sampling, the search loop, and the batch driver) is shallowly
embedded below.  Randomness is made explicit: every call the Python code makes
to `random.random()`, `random.choice`, `random.sample`, `np.random.choice` or
to the external nasbench oracle is modelled by reading from an explicit input
stream, indexed by the position of the call in the program's execution.
Floating point accuracies and simulated times are modelled by rationals.
Python exceptions (ValueError from `random.sample`, IndexError from `[-1]` /
`pop(0)` on empty sequences) are modelled with `Except`.
-/

namespace CreateRunData

/-- Operation label for the fixed first vertex (source line 47). -/
def INPUT : String := "input"

/-- Operation label for the fixed last vertex (source line 48). -/
def OUTPUT : String := "output"

/-- Operation label (source line 49). -/
def CONV3X3 : String := "conv3x3-bn-relu"

/-- Operation label (source line 50). -/
def CONV1X1 : String := "conv1x1-bn-relu"

/-- Operation label (source line 51). -/
def MAXPOOL3X3 : String := "maxpool3x3"

/-- Number of vertices of an architecture graph (source line 52). -/
def NUM_VERTICES : ℕ := 7

/-- Maximal number of edges (source line 53, unused by the algorithm). -/
def MAX_EDGES : ℕ := 9

/-- Number of entries of the strict upper triangle (source line 54). -/
def EDGE_SPOTS : ℚ := NUM_VERTICES * (NUM_VERTICES - 1) / 2

/-- Number of mutable (interior) vertices (source line 55). -/
def OP_SPOTS : ℕ := NUM_VERTICES - 2

/-- The operation vocabulary for interior vertices (source line 56). -/
def ALLOWED_OPS : List String := [CONV3X3, CONV1X1, MAXPOOL3X3]

/-- Insert `a` into `l` in front of the first element whose key is `≥ key a`.
Folding this over a list yields exactly the result of Python's stable
ascending `sorted(..., key=...)`. -/
def sInsert {α : Type} {β : Type} [LinearOrder β] (key : α → β) (a : α) :
    List α → List α
  | [] => [a]
  | b :: l => if key a ≤ key b then a :: b :: l else b :: sInsert key a l

/-- Embedding of Python's `sorted(l, key=key)` (a stable ascending sort). -/
def pySorted {α : Type} {β : Type} [LinearOrder β] (key : α → β) :
    List α → List α
  | [] => []
  | b :: l => sInsert key b (pySorted key l)

/-- Python exceptions raised by the sequence primitives the script uses. -/
inductive PyError : Type
  | valueError : PyError
  | indexError : PyError
deriving DecidableEq, Repr

deriving instance DecidableEq for Except

/-- Embedding of `list.pop(0)`: remove the element at index 0, raising
IndexError on an empty list. -/
def popZero {α : Type} : List α → Except PyError (List α)
  | [] => .error .indexError
  | _ :: l => .ok l

/-- Embedding of `random.sample(range(n), k)`.  The drawn indices are an
explicit input (`drawn`); the call raises ValueError exactly when `k > n`. -/
def pySampleRange (drawn : List ℕ) (n k : ℕ) : Except PyError (List ℕ) :=
  if k ≤ n then .ok drawn else .error .valueError

/-- Embedding of `random_combination` (source lines 111-116): draw
`sample_size` random indices into the pool, sort them ascending and read the
pool off at those indices. -/
def random_combination {α : Type} [Inhabited α] (pool : List α)
    (sample_size : ℕ) (drawn : List ℕ) : Except PyError (List α) :=
  match pySampleRange drawn pool.length sample_size with
  | .error e => .error e
  | .ok idxs => .ok ((pySorted (fun i => i) idxs).map (fun i => pool.getD i default))

/-- An architecture specification as constructed by the script: the adjacency
matrix handed to the `ModelSpec` constructor together with the per-vertex
operation list.  The oracle-side pruning of `ModelSpec` is out of scope; the
script only ever reads back `original_matrix` / `original_ops`, which are the
matrix and ops exactly as constructed, so those are what we store. -/
structure ModelSpec : Type where
  matrix : ℕ → ℕ → ℕ
  ops : List String

/-- Randomness consumed by one iteration of `random_spec`'s retry loop:
the `np.random.choice(ALLOWED_EDGES, size=(7,7))` entry at each position, and
the `np.random.choice(ALLOWED_OPS)` pick (as an index) at each vertex. -/
structure SpecRand : Type where
  edge : ℕ → ℕ → Fin 2
  op : ℕ → ℕ

/-- One iteration of the body of `random_spec`'s retry loop (source lines
72-78): sample a binary matrix, keep only the strict upper triangle
(`np.triu(matrix, 1)`), sample operations, then pin `ops[0]` to INPUT and
`ops[-1]` to OUTPUT. -/
def randomSpecAttempt (r : SpecRand) : ModelSpec where
  matrix := fun i j =>
    if i < j ∧ j < NUM_VERTICES then (r.edge i j : ℕ) else 0
  ops :=
    (((List.range NUM_VERTICES).map
        (fun i => ALLOWED_OPS.getD (r.op i % ALLOWED_OPS.length) "")).set 0
        INPUT).set (NUM_VERTICES - 1) OUTPUT

/-- Embedding of `random_spec` (source lines 69-80): repeat
`randomSpecAttempt` with fresh randomness until the oracle's validity
predicate accepts the candidate.  The unbounded `while True` retry loop is
embedded by requiring (`h`) that some attempt succeeds and returning the
first one that does. -/
def random_spec (is_valid : ModelSpec → Bool) (r : ℕ → SpecRand)
    (h : ∃ n, is_valid (randomSpecAttempt (r n)) = true) : ModelSpec :=
  randomSpecAttempt (r (Nat.find h))

/-- Randomness consumed by one iteration of `mutate_spec`'s retry loop: the
`random.random()` draw for each edge position, the `random.random()` draw for
each interior vertex, and the `random.choice` pick (as an index) for each
interior vertex. -/
structure MutationRand : Type where
  edge : ℕ → ℕ → ℚ
  op : ℕ → ℚ
  choice : ℕ → ℕ

/-- The body of one iteration of the op-mutation loop (source lines 98-104):
when the vertex's draw is below `mutation_rate / OP_SPOTS`, replace its
operation by a `random.choice` from the available operations excluding its
current one.  (`random.choice` on an empty list would raise; theorems carry
the nonemptiness precondition.) -/
def opMutate (available_ops : List String) (mutation_rate : ℚ)
    (r : MutationRand) (ops : List String) (ind : ℕ) : List String :=
  if r.op ind < mutation_rate / (OP_SPOTS : ℚ) then
    let available := available_ops.filter (fun o => o ≠ ops.getD ind "")
    ops.set ind (available.getD (r.choice ind % available.length) "")
  else ops

/-- One iteration of the body of `mutate_spec`'s retry loop (source lines
86-106): copy the parent's matrix and ops; flip each strict-upper-triangle
entry independently when its draw is below `mutation_rate / NUM_VERTICES`;
then walk the interior vertices `1, ..., NUM_VERTICES - 2` in order,
resampling each operation via `opMutate`. -/
def mutateAttempt (old_spec : ModelSpec) (available_ops : List String)
    (mutation_rate : ℚ) (r : MutationRand) : ModelSpec where
  matrix := fun src dst =>
    if src < dst ∧ dst < NUM_VERTICES ∧
        r.edge src dst < mutation_rate / (NUM_VERTICES : ℚ) then
      1 - old_spec.matrix src dst
    else old_spec.matrix src dst
  ops :=
    (List.range' 1 (NUM_VERTICES - 2)).foldl
      (opMutate available_ops mutation_rate r) old_spec.ops

/-- Embedding of `mutate_spec` (source lines 83-108): repeat `mutateAttempt`,
restarting from the unmutated parent with fresh randomness, until the
oracle's validity predicate accepts the candidate. -/
def mutate_spec (old_spec : ModelSpec) (available_ops : List String)
    (is_valid : ModelSpec → Bool) (mutation_rate : ℚ) (r : ℕ → MutationRand)
    (h : ∃ n,
      is_valid (mutateAttempt old_spec available_ops mutation_rate (r n)) = true) :
    ModelSpec :=
  mutateAttempt old_spec available_ops mutation_rate (r (Nat.find h))

/-- Oracle and randomness environment for one roll-out of
`run_revolution_search`, over an abstract specification type `σ`.  All
external calls are indexed by the oracle-query counter: `queryValid q s` /
`queryTest q s` are the accuracies `nasbench.query` reports for spec `s` at
the `q`-th query, `timeAfter q` is the cumulative simulated time
`get_budget_counters` reports right after the `q`-th query, `randomSpec q` is
the (valid) spec `random_spec` produces when called at query counter `q`,
`mutate q s` is the (valid) spec `mutate_spec` produces from parent `s` at
query counter `q`, and `sample q n k` is the index list
`random.sample(range(n), k)` returns at query counter `q`. -/
structure SearchEnv (σ : Type) : Type where
  queryValid : ℕ → σ → ℚ
  queryTest : ℕ → σ → ℚ
  timeAfter : ℕ → ℚ
  randomSpec : ℕ → σ
  mutate : ℕ → σ → σ
  sample : ℕ → ℕ → ℕ → List ℕ

/-- The mutable state of `run_revolution_search`: the three trajectory lists,
the population of (validation accuracy, spec) pairs, and the number of oracle
queries made so far. -/
structure SearchState (σ : Type) : Type where
  times : List ℚ
  best_valids : List ℚ
  best_tests : List ℚ
  population : List (ℚ × σ)
  qcount : ℕ

/-- Initial state (source lines 127-128): each trajectory starts as `[0.0]`
and the population is empty. -/
def initState (σ : Type) : SearchState σ :=
  ⟨[0], [0], [0], [], 0⟩

/-- The body of one seed-phase iteration (source lines 133-144): generate a
random spec, query it, read the budget counter, append to the times list and
the population, and update the best-so-far trajectories with the
carry-forward rule. -/
def seedUpdate {σ : Type} (env : SearchEnv σ) (st : SearchState σ) :
    SearchState σ :=
  let q := st.qcount
  let spec := env.randomSpec q
  let v := env.queryValid q spec
  let tst := env.queryTest q spec
  let time_spent := env.timeAfter q
  let last_v := st.best_valids.getLastD 0
  let last_t := st.best_tests.getLastD 0
  { times := st.times ++ [time_spent]
    best_valids := st.best_valids ++ [if v > last_v then v else last_v]
    best_tests := st.best_tests ++ [if v > last_v then tst else last_t]
    population := st.population ++ [(v, spec)]
    qcount := q + 1 }

/-- The seed phase of `run_revolution_search` (source lines 132-147): up to
`population_size` iterations of `seedUpdate`, breaking out early if the time
reported after the iteration's query exceeds the budget. -/
def seedPhase {σ : Type} (env : SearchEnv σ) (max_time_budget : ℚ) :
    ℕ → SearchState σ → SearchState σ
  | 0, st => st
  | Nat.succ k, st =>
    if env.timeAfter st.qcount > max_time_budget then seedUpdate env st
    else seedPhase env max_time_budget k (seedUpdate env st)

/-- One iteration of the evolution loop body (source lines 150-167): draw a
tournament sample, pick the entry with the highest validation accuracy
(`sorted(sample, key=lambda i: i[0])[-1]`), mutate its spec, query the child,
append to the trajectories, append the child to the population and pop the
oldest entry.  Returns the reported time together with the new state. -/
def evolveStep {σ : Type} [Inhabited σ] (env : SearchEnv σ)
    (tournament_size : ℕ) (st : SearchState σ) :
    Except PyError (ℚ × SearchState σ) :=
  match random_combination st.population tournament_size
      (env.sample st.qcount st.population.length tournament_size) with
  | .error e => .error e
  | .ok sample =>
    match (pySorted (fun e : ℚ × σ => e.1) sample).getLast? with
    | none => .error .indexError
    | some best =>
      let best_spec := best.2
      let new_spec := env.mutate st.qcount best_spec
      let v := env.queryValid st.qcount new_spec
      let tst := env.queryTest st.qcount new_spec
      let time_spent := env.timeAfter st.qcount
      match popZero (st.population ++ [(v, new_spec)]) with
      | .error e => .error e
      | .ok population1 =>
        let last_v := st.best_valids.getLastD 0
        let last_t := st.best_tests.getLastD 0
        .ok (time_spent,
          { times := st.times ++ [time_spent]
            best_valids := st.best_valids ++ [if v > last_v then v else last_v]
            best_tests := st.best_tests ++ [if v > last_v then tst else last_t]
            population := population1
            qcount := st.qcount + 1 })

/-- The evolution loop of `run_revolution_search` (source lines 149-170):
iterate `evolveStep`, stopping the first time the reported time exceeds the
budget.  The source's `while True` is embedded with explicit fuel; `none`
means the fuel ran out before the loop terminated. -/
def evolveLoop {σ : Type} [Inhabited σ] (env : SearchEnv σ)
    (max_time_budget : ℚ) (tournament_size : ℕ) :
    ℕ → SearchState σ → Option (Except PyError (SearchState σ))
  | 0, _ => none
  | Nat.succ fuel, st =>
    match evolveStep env tournament_size st with
    | .error e => some (.error e)
    | .ok (time_spent, st1) =>
      if time_spent > max_time_budget then some (.ok st1)
      else evolveLoop env max_time_budget tournament_size fuel st1

/-- Embedding of `run_revolution_search` (source lines 118-172): seed phase
followed by the evolution loop; on normal termination the three trajectory
lists are returned. -/
def run_revolution_search {σ : Type} [Inhabited σ] (env : SearchEnv σ)
    (max_time_budget : ℚ) (population_size tournament_size : ℕ) (fuel : ℕ) :
    Option (Except PyError (List ℚ × List ℚ × List ℚ)) :=
  match evolveLoop env max_time_budget tournament_size fuel
      (seedPhase env max_time_budget population_size (initState σ)) with
  | none => none
  | some (.error e) => some (.error e)
  | some (.ok st) => some (.ok (st.times, st.best_valids, st.best_tests))

/-- Number of runs of the first experiment (source line 184). -/
def n_30 : ℕ := 30

/-- Number of runs of the second experiment (source line 185). -/
def n_1000 : ℕ := 1000

/-- Oracle interactions the batch driver performs, in order: a
`reset_budget_counters` call or a `run_revolution_search` call. -/
inductive OracleEv : Type
  | reset : OracleEv
  | run : OracleEv
deriving DecidableEq, Repr

/-- One of the driver's two repetition loops (source lines 186-190 and
193-200): each iteration resets the oracle's budget counters, performs one
search run, and appends the last element of the run's `best_valid` and
`best_test` trajectories to the accumulators.  `search i` abstracts the
`(best_valid, best_test)` trajectories of the `i`-th search run (both always
nonempty, as the search seeds them with `[0.0]`). -/
def runPhase (search : ℕ → List ℚ × List ℚ) (start n : ℕ) :
    List OracleEv × List ℚ × List ℚ :=
  (List.range n).foldl
    (fun acc i =>
      let bv := (search (start + i)).1
      let bt := (search (start + i)).2
      (acc.1 ++ [OracleEv.reset, OracleEv.run],
        acc.2.1 ++ [bv.getLastD 0],
        acc.2.2 ++ [bt.getLastD 0]))
    ([], [], [])

/-- Embedding of the `__main__` block of the script (source lines 175-213):
run the 30-repetition experiment, then the 1000-repetition experiment, and
assemble the `run_data` object written to JSON, in the source's insertion
order of keys (lines 202-206).  The first component is the trace of oracle
interactions; the second is the JSON object as an association list. -/
def createRunDataMain (search : ℕ → List ℚ × List ℚ) :
    List OracleEv × List (String × List ℚ) :=
  let p30 := runPhase search 0 n_30
  let p1000 := runPhase search n_30 n_1000
  (p30.1 ++ p1000.1,
    [("valids_30", p30.2.1), ("valids_1000", p1000.2.1),
     ("tests_30", p30.2.2), ("tests_1000", p1000.2.2)])

/-- A deterministic stub oracle environment over the trivial spec type, used
to instantiate theorems on concrete runs: the validation/test accuracies and
the cumulative simulated time are functions of the query index, mutation is
the identity, and each `random.sample(range(n), k)` draw is `[0, ..., k-1]`. -/
def stubEnv (v tst t : ℕ → ℚ) : SearchEnv Unit where
  queryValid := fun q _ => v q
  queryTest := fun q _ => tst q
  timeAfter := t
  randomSpec := fun _ => ()
  mutate := fun _ s => s
  sample := fun _ _ k => List.range k

/-- A stub oracle whose second query improves validation accuracy while its
test accuracy drops, with time `q + 1` after the `q`-th query. -/
def c1Env : SearchEnv Unit :=
  stubEnv (fun q => if q = 0 then 1/2 else 3/4)
    (fun q => if q = 0 then 9/10 else 1/10)
    (fun q => (q : ℚ) + 1)

/-- The spec's end-to-end stub oracle: accuracy `(q+1)/100` for the `q`-th
distinct query and time `q + 1` after it. -/
def c2Env : SearchEnv Unit :=
  stubEnv (fun q => ((q : ℚ) + 1) / 100)
    (fun q => ((q : ℚ) + 1) / 100)
    (fun q => (q : ℚ) + 1)

/-- A concrete parent specification (empty graph, convolution interior) used
to instantiate the mutation theorems. -/
def sampleParent : ModelSpec :=
  ⟨fun _ _ => 0, [INPUT, CONV3X3, CONV3X3, CONV3X3, CONV3X3, CONV3X3, OUTPUT]⟩

/-- A constant mutation-randomness stream for concrete instantiations. -/
def sampleMutRand : ℕ → MutationRand :=
  fun _ => ⟨fun _ _ => 1, fun _ => 1, fun _ => 0⟩

/-- With an always-true validity predicate, the very first mutation attempt
is accepted. -/
def sampleMutH : ∃ n, (fun _ : ModelSpec => true)
    (mutateAttempt sampleParent ALLOWED_OPS 1 (sampleMutRand n)) = true :=
  ⟨0, rfl⟩

/-- A constant spec-randomness stream for concrete instantiations. -/
def sampleSpecRand : ℕ → SpecRand :=
  fun _ => ⟨fun _ _ => 0, fun _ => 0⟩

/-- With an always-true validity predicate, the very first random spec
attempt is accepted. -/
def sampleSpecH : ∃ n, (fun _ : ModelSpec => true)
    (randomSpecAttempt (sampleSpecRand n)) = true :=
  ⟨0, rfl⟩

/-! ### Properties of the stable sort `pySorted` -/

/-- Inserting is a permutation. -/
theorem sInsert_perm {α β : Type} [LinearOrder β] (key : α → β) (a : α)
    (l : List α) : (sInsert key a l).Perm (a :: l) := by
  induction l with
  | nil => simp [sInsert]
  | cons b l ih =>
    rw [sInsert]
    split
    · exact List.Perm.refl _
    · exact (ih.cons b).trans (List.Perm.swap a b l)

/-- Sorting is a permutation. -/
theorem pySorted_perm {α β : Type} [LinearOrder β] (key : α → β)
    (l : List α) : (pySorted key l).Perm l := by
  induction l with
  | nil => exact List.Perm.refl _
  | cons b l ih =>
    exact (sInsert_perm key b (pySorted key l)).trans (ih.cons b)

/-- Inserting preserves sortedness by the key. -/
theorem pairwise_sInsert {α β : Type} [LinearOrder β] (key : α → β) (a : α)
    (l : List α) (hl : l.Pairwise (fun x y => key x ≤ key y)) :
    (sInsert key a l).Pairwise (fun x y => key x ≤ key y) := by
  induction l with
  | nil => simp [sInsert]
  | cons b l ih =>
    rw [sInsert]
    rcases List.pairwise_cons.mp hl with ⟨hb, hl'⟩
    split
    · rename_i hab
      refine List.pairwise_cons.mpr ⟨?_, hl⟩
      intro y hy
      rcases List.mem_cons.mp hy with rfl | hy
      · exact hab
      · exact le_trans hab (hb y hy)
    · rename_i hab
      push_neg at hab
      refine List.pairwise_cons.mpr ⟨?_, ih hl'⟩
      intro y hy
      have hy' : y ∈ a :: l := (sInsert_perm key a l).mem_iff.mp hy
      rcases List.mem_cons.mp hy' with rfl | hy'
      · exact le_of_lt hab
      · exact hb y hy'

/-- The result of `pySorted` is sorted ascending by the key. -/
theorem pairwise_pySorted {α β : Type} [LinearOrder β] (key : α → β)
    (l : List α) : (pySorted key l).Pairwise (fun x y => key x ≤ key y) := by
  induction l with
  | nil => simp [pySorted]
  | cons b l ih => exact pairwise_sInsert key b _ ih

/-- Elements whose key equals that of the inserted element: the inserted
element lands in front of all of them. -/
theorem filter_sInsert_eq {α β : Type} [LinearOrder β] (key : α → β) (c : β)
    (a : α) (l : List α) (h : key a = c) :
    (sInsert key a l).filter (fun x => decide (key x = c)) =
      a :: l.filter (fun x => decide (key x = c)) := by
  induction l with
  | nil => simp [sInsert, h]
  | cons b l ih =>
    rw [sInsert]
    split
    · simp [h]
    · rename_i hab
      push_neg at hab
      have hbc : ¬ key b = c := fun hbc =>
        absurd hab (by rw [hbc, ← h]; exact lt_irrefl _)
      simp only [List.filter_cons, decide_eq_true_eq, hbc, if_false, ih]

/-- Elements whose key differs from the inserted element's are unaffected. -/
theorem filter_sInsert_ne {α β : Type} [LinearOrder β] (key : α → β) (c : β)
    (a : α) (l : List α) (h : ¬ key a = c) :
    (sInsert key a l).filter (fun x => decide (key x = c)) =
      l.filter (fun x => decide (key x = c)) := by
  induction l with
  | nil => simp [sInsert, h]
  | cons b l ih =>
    rw [sInsert]
    split
    · simp [h]
    · simp [List.filter_cons, ih]

/-- Stability of `pySorted`: the elements with any fixed key keep their
original relative order. -/
theorem filter_pySorted {α β : Type} [LinearOrder β] (key : α → β) (c : β)
    (l : List α) :
    (pySorted key l).filter (fun x => decide (key x = c)) =
      l.filter (fun x => decide (key x = c)) := by
  induction l with
  | nil => rfl
  | cons b l ih =>
    rw [pySorted]
    by_cases hb : key b = c
    · rw [filter_sInsert_eq key c b _ hb, ih]
      simp [hb]
    · rw [filter_sInsert_ne key c b _ hb, ih]
      simp [hb]

/-- Filtering by a predicate that holds at the last element keeps it last. -/
theorem getLast?_filter {α : Type} (p : α → Bool) (l : List α) (e : α)
    (hl : l.getLast? = some e) (hp : p e = true) :
    (l.filter p).getLast? = some e := by
  induction l with
  | nil => simp at hl
  | cons x l ih =>
    cases l with
    | nil =>
      simp only [List.getLast?_singleton, Option.some.injEq] at hl
      subst hl
      simp [List.filter_cons, hp]
    | cons y t =>
      rw [List.getLast?_cons_cons] at hl
      have htail := ih hl
      rw [List.filter_cons]
      split
      · have hlast : (List.filter p (y :: t)).getLast? = some e := htail
        cases hft : List.filter p (y :: t) with
        | nil => rw [hft] at hlast; simp at hlast
        | cons z zs => rw [hft] at hlast; rw [List.getLast?_cons_cons]; exact hlast
      · exact htail

/-- In a list sorted ascending by key, every element's key is bounded by the
last element's key. -/
theorem key_le_getLast {α β : Type} [LinearOrder β] (key : α → β)
    (l : List α) (e : α) (hp : l.Pairwise (fun x y => key x ≤ key y))
    (hl : l.getLast? = some e) : ∀ x ∈ l, key x ≤ key e := by
  induction l with
  | nil => simp at hl
  | cons a l ih =>
    rcases List.pairwise_cons.mp hp with ⟨ha, hp'⟩
    intro x hx
    cases l with
    | nil =>
      simp only [List.getLast?_singleton, Option.some.injEq] at hl
      subst hl
      simp only [List.mem_singleton] at hx
      subst hx
      exact le_refl _
    | cons y t =>
      rw [List.getLast?_cons_cons] at hl
      rcases List.mem_cons.mp hx with rfl | hx'
      · exact ha e (List.mem_of_getLast?_eq_some hl)
      · exact ih hp' hl x hx'

/-! ### Analysis of the search loop -/

/-- Popping index 0 from a list with an element appended never raises. -/
theorem popZero_append_singleton {α : Type} (l : List α) (x : α) :
    popZero (l ++ [x]) = .ok ((l ++ [x]).tail) := by
  cases l <;> rfl

/-- `random_combination` succeeds when the sample fits in the pool. -/
theorem random_combination_eq_ok {α : Type} [Inhabited α] {pool : List α}
    {k : ℕ} (drawn : List ℕ) (hk : k ≤ pool.length) :
    random_combination pool k drawn =
      .ok ((pySorted (fun i : ℕ => i) drawn).map (fun i => pool.getD i default)) := by
  unfold random_combination pySampleRange
  rw [if_pos hk]

/-- A successful `random_combination` implies the sample fit in the pool. -/
theorem random_combination_ok_le {α : Type} [Inhabited α] {pool : List α}
    {k : ℕ} {drawn : List ℕ} {s : List α}
    (h : random_combination pool k drawn = .ok s) : k ≤ pool.length := by
  by_cases hk : k ≤ pool.length
  · exact hk
  · unfold random_combination pySampleRange at h
    rw [if_neg hk] at h
    exact Except.noConfusion h

/-- `random_combination` raises ValueError when the requested sample exceeds
the pool (the behaviour of `random.sample(range(n), k)` for `k > n`). -/
theorem random_combination_gt {α : Type} [Inhabited α] (pool : List α)
    (k : ℕ) (drawn : List ℕ) (hk : pool.length < k) :
    random_combination pool k drawn = .error .valueError := by
  unfold random_combination pySampleRange
  rw [if_neg (by omega)]

/-- Everything a successful evolution step tells us: the sample fit in the
population, the reported time is the oracle's time at the current query
index, the query counter advances by one, one entry is appended to each
trajectory following the carry-forward rule, and the population gets the
child appended and its index-0 (oldest) entry removed. -/
theorem evolveStep_ok_dest {σ : Type} [Inhabited σ] {env : SearchEnv σ}
    {tour : ℕ} {st : SearchState σ} {t : ℚ} {st₁ : SearchState σ}
    (h : evolveStep env tour st = .ok (t, st₁)) :
    tour ≤ st.population.length ∧
    t = env.timeAfter st.qcount ∧
    st₁.qcount = st.qcount + 1 ∧
    st₁.times = st.times ++ [t] ∧
    ∃ s : σ,
      st₁.best_valids = st.best_valids ++
        [if env.queryValid st.qcount s > st.best_valids.getLastD 0
          then env.queryValid st.qcount s else st.best_valids.getLastD 0] ∧
      st₁.best_tests = st.best_tests ++
        [if env.queryValid st.qcount s > st.best_valids.getLastD 0
          then env.queryTest st.qcount s else st.best_tests.getLastD 0] ∧
      st₁.population = (st.population ++ [(env.queryValid st.qcount s, s)]).tail := by
  unfold evolveStep at h
  split at h
  · exact Except.noConfusion h
  · rename_i sampleL hrc
    have hk := random_combination_ok_le hrc
    split at h
    · exact Except.noConfusion h
    · rename_i best hbest
      dsimp only at h
      split at h
      · rename_i e hpop
        rw [popZero_append_singleton] at hpop
        exact Except.noConfusion hpop
      · rename_i pop1 hpop
        rw [popZero_append_singleton] at hpop
        injection hpop with hpop'
        injection h with h'
        injection h' with h1 h2
        subst h1
        subst h2
        exact ⟨hk, rfl, rfl, rfl, env.mutate st.qcount best.2, rfl, rfl, hpop'.symm⟩

/-- A successful evolution step exists whenever the tournament is nonempty,
fits in the population, and the sample draw has the size `random.sample`
guarantees. -/
theorem evolveStep_exists_ok {σ : Type} [Inhabited σ] (env : SearchEnv σ)
    (tour : ℕ) (st : SearchState σ) (hk : tour ≤ st.population.length)
    (h1 : 1 ≤ tour)
    (hs : (env.sample st.qcount st.population.length tour).length = tour) :
    ∃ st₁, evolveStep env tour st = .ok (env.timeAfter st.qcount, st₁) := by
  have hlen : ((pySorted (fun i : ℕ => i)
        (env.sample st.qcount st.population.length tour)).map
        (fun i => st.population.getD i default)).length = tour := by
    rw [List.length_map, (pySorted_perm _ _).length_eq, hs]
  have hne : pySorted (fun e : ℚ × σ => e.1)
      ((pySorted (fun i : ℕ => i)
        (env.sample st.qcount st.population.length tour)).map
        (fun i => st.population.getD i default)) ≠ [] := by
    intro h0
    have hpl := (pySorted_perm (fun e : ℚ × σ => e.1)
      ((pySorted (fun i : ℕ => i)
        (env.sample st.qcount st.population.length tour)).map
        (fun i => st.population.getD i default))).length_eq
    rw [h0] at hpl
    simp only [List.length_nil] at hpl
    rw [← hpl] at hlen
    omega
  obtain ⟨best, hbest⟩ : ∃ b, (pySorted (fun e : ℚ × σ => e.1)
      ((pySorted (fun i : ℕ => i)
        (env.sample st.qcount st.population.length tour)).map
        (fun i => st.population.getD i default))).getLast? = some b := by
    cases hb : (pySorted (fun e : ℚ × σ => e.1)
        ((pySorted (fun i : ℕ => i)
          (env.sample st.qcount st.population.length tour)).map
          (fun i => st.population.getD i default))).getLast? with
    | none => exact absurd (List.getLast?_eq_none_iff.mp hb) hne
    | some b => exact ⟨b, rfl⟩
  refine ⟨{ times := st.times ++ [env.timeAfter st.qcount]
            best_valids := st.best_valids ++
              [if env.queryValid st.qcount (env.mutate st.qcount best.2) >
                  st.best_valids.getLastD 0
                then env.queryValid st.qcount (env.mutate st.qcount best.2)
                else st.best_valids.getLastD 0]
            best_tests := st.best_tests ++
              [if env.queryValid st.qcount (env.mutate st.qcount best.2) >
                  st.best_valids.getLastD 0
                then env.queryTest st.qcount (env.mutate st.qcount best.2)
                else st.best_tests.getLastD 0]
            population := (st.population ++
              [(env.queryValid st.qcount (env.mutate st.qcount best.2),
                env.mutate st.qcount best.2)]).tail
            qcount := st.qcount + 1 }, ?_⟩
  unfold evolveStep
  rw [random_combination_eq_ok _ hk]
  dsimp only
  rw [hbest]
  dsimp only
  rw [popZero_append_singleton]

/-- Appending the carry-forward best value keeps a best-so-far list sorted:
the appended entry is the old last value or something larger. -/
theorem chain_append_carry (l : List ℚ) (v : ℚ)
    (hc : l.Chain' (· ≤ ·)) :
    (l ++ [if v > l.getLastD 0 then v else l.getLastD 0]).Chain' (· ≤ ·) := by
  apply List.chain'_append.mpr
  refine ⟨hc, List.chain'_singleton _, ?_⟩
  intro a ha y hy
  simp only [List.head?_cons, Option.mem_def, Option.some.injEq] at hy
  subst hy
  have hl : l.getLastD 0 = a := by
    rw [List.getLastD_eq_getLast?, ha]
    rfl
  rw [hl]
  split
  · rename_i hv
    exact le_of_lt hv
  · exact le_refl a

/-- The query counter of one seed iteration. -/
@[simp] theorem seedUpdate_qcount {σ : Type} (env : SearchEnv σ)
    (st : SearchState σ) : (seedUpdate env st).qcount = st.qcount + 1 := rfl

/-- The times list of one seed iteration. -/
@[simp] theorem seedUpdate_times {σ : Type} (env : SearchEnv σ)
    (st : SearchState σ) :
    (seedUpdate env st).times = st.times ++ [env.timeAfter st.qcount] := rfl

/-- The population of one seed iteration. -/
@[simp] theorem seedUpdate_population {σ : Type} (env : SearchEnv σ)
    (st : SearchState σ) :
    (seedUpdate env st).population = st.population ++
      [(env.queryValid st.qcount (env.randomSpec st.qcount),
        env.randomSpec st.qcount)] := rfl

/-- The best-validation list of one seed iteration. -/
@[simp] theorem seedUpdate_best_valids {σ : Type} (env : SearchEnv σ)
    (st : SearchState σ) :
    (seedUpdate env st).best_valids = st.best_valids ++
      [if env.queryValid st.qcount (env.randomSpec st.qcount) >
          st.best_valids.getLastD 0
        then env.queryValid st.qcount (env.randomSpec st.qcount)
        else st.best_valids.getLastD 0] := rfl

/-- The best-test list of one seed iteration. -/
@[simp] theorem seedUpdate_best_tests {σ : Type} (env : SearchEnv σ)
    (st : SearchState σ) :
    (seedUpdate env st).best_tests = st.best_tests ++
      [if env.queryValid st.qcount (env.randomSpec st.qcount) >
          st.best_valids.getLastD 0
        then env.queryTest st.qcount (env.randomSpec st.qcount)
        else st.best_tests.getLastD 0] := rfl

/-- The query counter never decreases across the seed phase and grows by at
most the number of remaining iterations. -/
theorem seedPhase_qcount_le {σ : Type} (env : SearchEnv σ) (b : ℚ) :
    ∀ (n : ℕ) (st : SearchState σ),
      st.qcount ≤ (seedPhase env b n st).qcount ∧
      (seedPhase env b n st).qcount ≤ st.qcount + n := by
  intro n
  induction n with
  | zero => intro st; rw [seedPhase]; omega
  | succ k ih =>
    intro st
    rw [seedPhase]
    split
    · simp only [seedUpdate_qcount]
      omega
    · have h := ih (seedUpdate env st)
      simp only [seedUpdate_qcount] at h
      omega

/-- The population grows by at most one entry per seed iteration. -/
theorem seedPhase_pop_len {σ : Type} (env : SearchEnv σ) (b : ℚ) :
    ∀ (n : ℕ) (st : SearchState σ),
      (seedPhase env b n st).population.length ≤ st.population.length + n := by
  intro n
  induction n with
  | zero => intro st; rw [seedPhase]; omega
  | succ k ih =>
    intro st
    rw [seedPhase]
    split
    · simp only [seedUpdate_population, List.length_append, List.length_singleton]
      omega
    · have h := ih (seedUpdate env st)
      simp only [seedUpdate_population, List.length_append, List.length_singleton] at h
      omega

/-- The seed phase preserves sortedness of the best-validation list. -/
theorem seedPhase_chain {σ : Type} (env : SearchEnv σ) (b : ℚ) :
    ∀ (n : ℕ) (st : SearchState σ),
      st.best_valids.Chain' (· ≤ ·) →
      (seedPhase env b n st).best_valids.Chain' (· ≤ ·) := by
  intro n
  induction n with
  | zero => intro st h; rw [seedPhase]; exact h
  | succ k ih =>
    intro st h
    have happ : ((seedUpdate env st).best_valids).Chain' (· ≤ ·) := by
      rw [seedUpdate_best_valids]
      exact chain_append_carry st.best_valids
        (env.queryValid st.qcount (env.randomSpec st.qcount)) h
    rw [seedPhase]
    split
    · exact happ
    · exact ih (seedUpdate env st) happ

/-- The seed phase preserves equality of the three trajectory lengths. -/
theorem seedPhase_len_eq {σ : Type} (env : SearchEnv σ) (b : ℚ) :
    ∀ (n : ℕ) (st : SearchState σ),
      st.times.length = st.best_valids.length →
      st.best_valids.length = st.best_tests.length →
      (seedPhase env b n st).times.length =
          (seedPhase env b n st).best_valids.length ∧
        (seedPhase env b n st).best_valids.length =
          (seedPhase env b n st).best_tests.length := by
  intro n
  induction n with
  | zero => intro st h1 h2; rw [seedPhase]; exact ⟨h1, h2⟩
  | succ k ih =>
    intro st h1 h2
    rw [seedPhase]
    split
    · constructor
      · simp only [seedUpdate_times, seedUpdate_best_valids, List.length_append,
          List.length_singleton]
        omega
      · simp only [seedUpdate_best_valids, seedUpdate_best_tests,
          List.length_append, List.length_singleton]
        omega
    · refine ih (seedUpdate env st) ?_ ?_
      · simp only [seedUpdate_times, seedUpdate_best_valids, List.length_append,
          List.length_singleton]
        omega
      · simp only [seedUpdate_best_valids, seedUpdate_best_tests,
          List.length_append, List.length_singleton]
        omega

/-- The seed phase keeps the times list one longer than the query counter. -/
theorem seedPhase_times_len {σ : Type} (env : SearchEnv σ) (b : ℚ) :
    ∀ (n : ℕ) (st : SearchState σ),
      st.times.length = st.qcount + 1 →
      (seedPhase env b n st).times.length = (seedPhase env b n st).qcount + 1 := by
  intro n
  induction n with
  | zero => intro st h; rw [seedPhase]; exact h
  | succ k ih =>
    intro st h
    rw [seedPhase]
    split
    · simp only [seedUpdate_times, seedUpdate_qcount, List.length_append,
        List.length_singleton]
      omega
    · refine ih (seedUpdate env st) ?_
      simp only [seedUpdate_times, seedUpdate_qcount, List.length_append,
        List.length_singleton]
      omega

/-- Every seed query except possibly the last one the phase performed stayed
within the budget (the phase breaks right after the first query that
exceeds it). -/
theorem seedPhase_time_bounds {σ : Type} (env : SearchEnv σ) (b : ℚ) :
    ∀ (n : ℕ) (st : SearchState σ) (k : ℕ),
      st.qcount ≤ k → k + 1 < (seedPhase env b n st).qcount →
      env.timeAfter k ≤ b := by
  intro n
  induction n with
  | zero =>
    intro st k h1 h2
    rw [seedPhase] at h2
    omega
  | succ m ih =>
    intro st k h1 h2
    rw [seedPhase] at h2
    split at h2
    · rename_i ht
      simp only [seedUpdate_qcount] at h2
      exact absurd h2 (by omega)
    · rename_i ht
      push_neg at ht
      rcases Nat.lt_or_ge k (st.qcount + 1) with hk | hk
      · have hkq : k = st.qcount := by omega
        subst hkq
        exact ht
      · refine ih (seedUpdate env st) k ?_ h2
        simp only [seedUpdate_qcount]
        omega

/-- If the seed phase stopped before using all its iterations, its very last
query exceeded the budget (early abort), and at least one query was made. -/
theorem seedPhase_early_abort {σ : Type} (env : SearchEnv σ) (b : ℚ) :
    ∀ (n : ℕ) (st : SearchState σ),
      (seedPhase env b n st).qcount < st.qcount + n →
      st.qcount < (seedPhase env b n st).qcount ∧
      b < env.timeAfter ((seedPhase env b n st).qcount - 1) := by
  intro n
  induction n with
  | zero =>
    intro st h
    rw [seedPhase] at h
    omega
  | succ m ih =>
    intro st h
    rw [seedPhase] at h ⊢
    split at h
    · rename_i ht
      split
      · constructor
        · simp only [seedUpdate_qcount]
          omega
        · simp only [seedUpdate_qcount, Nat.add_sub_cancel]
          exact ht
      · rename_i ht2
        exact absurd ht ht2
    · rename_i ht
      split
      · rename_i ht2
        exact absurd ht2 ht
      · have h2 : (seedPhase env b m (seedUpdate env st)).qcount <
            (seedUpdate env st).qcount + m := by
          simp only [seedUpdate_qcount]
          omega
        have h3 := ih (seedUpdate env st) h2
        have h4 := (seedPhase_qcount_le env b m (seedUpdate env st)).1
        simp only [seedUpdate_qcount] at h3 h4
        exact ⟨by omega, h3.2⟩

/-- Transport of an invariant through a successful run of the evolution
loop. -/
theorem evolveLoop_preserves {σ : Type} [Inhabited σ] {env : SearchEnv σ}
    {budget : ℚ} {tour : ℕ} (P : SearchState σ → Prop)
    (hstep : ∀ st t st₁, evolveStep env tour st = .ok (t, st₁) → P st → P st₁) :
    ∀ fuel (st st' : SearchState σ),
      evolveLoop env budget tour fuel st = some (.ok st') → P st → P st' := by
  intro fuel
  induction fuel with
  | zero => intro st st' h; exact absurd h (by simp [evolveLoop])
  | succ fuel ih =>
    intro st st' h hP
    rw [evolveLoop] at h
    split at h
    · rename_i e hs
      injection h with h'
      exact Except.noConfusion h'
    · rename_i t st₁ hs
      split at h
      · injection h with h'
        injection h' with h''
        subst h''
        exact hstep st t st₁ hs hP
      · exact ih st₁ st' h (hstep st t st₁ hs hP)

/-- A successful evolution step implies the tournament was nonempty and so
was the population, given that the sample draw has the size `random.sample`
guarantees. -/
theorem evolveStep_ok_tour_pos {σ : Type} [Inhabited σ] {env : SearchEnv σ}
    {tour : ℕ} {st : SearchState σ} {t : ℚ} {st₁ : SearchState σ}
    (hS_at : (env.sample st.qcount st.population.length tour).length = tour)
    (h : evolveStep env tour st = .ok (t, st₁)) :
    1 ≤ tour ∧ st.population ≠ [] := by
  unfold evolveStep at h
  split at h
  · exact Except.noConfusion h
  · rename_i sampleL hrc
    have hk := random_combination_ok_le hrc
    split at h
    · exact Except.noConfusion h
    · rename_i best hbest
      have hsv := random_combination_eq_ok
        (env.sample st.qcount st.population.length tour) hk
      rw [hrc] at hsv
      injection hsv with hsv'
      have hlen : sampleL.length = tour := by
        rw [hsv', List.length_map, (pySorted_perm _ _).length_eq, hS_at]
      have hne : sampleL ≠ [] := by
        intro h0
        rw [h0] at hbest
        simp [pySorted] at hbest
      have htour : 1 ≤ tour := by
        rcases Nat.eq_zero_or_pos tour with h0 | h0
        · rw [h0] at hlen
          exact absurd (List.length_eq_zero.mp hlen) hne
        · exact h0
      refine ⟨htour, ?_⟩
      intro h0
      rw [h0] at hk
      simp only [List.length_nil, Nat.le_zero] at hk
      omega

/-- Under the `random.sample` size guarantee, if the oracle's reported time
exceeds the budget at query index `j` and at no earlier index reachable from
the current state, the evolution loop runs with exactly enough fuel to stop
right after query `j`. -/
theorem evolveLoop_stops {σ : Type} [Inhabited σ] (env : SearchEnv σ)
    (budget : ℚ) (tour : ℕ)
    (hS : ∀ q n k, (env.sample q n k).length = k) (h1 : 1 ≤ tour) (j : ℕ) :
    ∀ (n : ℕ) (st : SearchState σ),
      st.qcount + n = j + 1 →
      tour ≤ st.population.length →
      st.qcount ≤ j →
      (∀ i, st.qcount ≤ i → i < j → env.timeAfter i ≤ budget) →
      budget < env.timeAfter j →
      st.times.length = st.qcount + 1 →
      ∃ st', evolveLoop env budget tour n st = some (.ok st') ∧
        st'.qcount = j + 1 ∧ st'.times.length = j + 2 := by
  intro n
  induction n with
  | zero =>
    intro st hn hk hj hlt hgt htl
    exfalso
    omega
  | succ m ih =>
    intro st hn hk hj hlt hgt htl
    obtain ⟨st₁, hstep⟩ := evolveStep_exists_ok env tour st hk h1 (hS _ _ _)
    obtain ⟨hk', htt, hq1, ht1, s, hbv, hbt, hp⟩ := evolveStep_ok_dest hstep
    have hpop : st₁.population.length = st.population.length := by
      rw [hp, List.length_tail, List.length_append, List.length_singleton]
      omega
    have htl1 : st₁.times.length = st₁.qcount + 1 := by
      rw [ht1, List.length_append, List.length_singleton, htl, hq1]
    by_cases hj3 : st.qcount = j
    · refine ⟨st₁, ?_, ?_, ?_⟩
      · rw [evolveLoop, hstep]
        show (if env.timeAfter st.qcount > budget then some (Except.ok st₁)
          else evolveLoop env budget tour m st₁) = some (Except.ok st₁)
        rw [if_pos (by rw [hj3]; exact hgt)]
      · rw [hq1, hj3]
      · rw [htl1, hq1, hj3]
    · have hql : st.qcount < j := lt_of_le_of_ne hj hj3
      have hle : env.timeAfter st.qcount ≤ budget := hlt st.qcount (le_refl _) hql
      obtain ⟨st', hloop, hq', htl'⟩ := ih st₁ (by omega) (by rw [hpop]; exact hk)
        (by omega) (fun i hi1 hi2 => hlt i (by omega) hi2) hgt htl1
      refine ⟨st', ?_, hq', htl'⟩
      rw [evolveLoop, hstep]
      show (if env.timeAfter st.qcount > budget then some (Except.ok st₁)
        else evolveLoop env budget tour m st₁) = some (Except.ok st')
      rw [if_neg (not_lt.mpr hle), hloop]

/-- C7: for every population whose length is at least `sample_size`,
`random_combination` returns exactly `sample_size` entries taken at distinct,
strictly ascending indices of the population — no position is used twice, the
entries keep their original relative order, and selection is by the randomly
drawn indices (here the explicit draw `drawn` of `random.sample`), not by
value. -/
theorem c7_random_combination_distinct_ascending {α : Type} [Inhabited α]
    (pool : List α) (sample_size : ℕ) (drawn : List ℕ)
    (hk : sample_size ≤ pool.length) (hlen : drawn.length = sample_size)
    (hnd : drawn.Nodup) (hmem : ∀ i ∈ drawn, i < pool.length) :
    ∃ idxs : List ℕ,
      random_combination pool sample_size drawn =
        .ok (idxs.map (fun i => pool.getD i default)) ∧
      idxs.length = sample_size ∧
      (idxs.map (fun i => pool.getD i default)).length = sample_size ∧
      idxs.Pairwise (· < ·) ∧
      (∀ i ∈ idxs, i < pool.length) ∧
      idxs.Perm drawn := by
  have hperm := pySorted_perm (fun i : ℕ => i) drawn
  refine ⟨pySorted (fun i : ℕ => i) drawn, ?_, ?_, ?_, ?_, ?_, hperm⟩
  · unfold random_combination pySampleRange
    rw [if_pos hk]
  · rw [hperm.length_eq, hlen]
  · rw [List.length_map, hperm.length_eq, hlen]
  · have hle := pairwise_pySorted (fun i : ℕ => i) drawn
    have hnd' : (pySorted (fun i : ℕ => i) drawn).Nodup :=
      hperm.nodup_iff.mpr hnd
    exact (hle.and hnd').imp (fun h => lt_of_le_of_ne h.1 h.2)
  · intro i hi
    exact hmem i (hperm.mem_iff.mp hi)

/-- C7 witness: the theorem applied to the pool `[10, 20, 30]` with
`sample_size = 2` and drawn indices `[2, 0]`. -/
theorem c7_witness :
    (2 ≤ ([10, 20, 30] : List ℕ).length ∧ ([2, 0] : List ℕ).length = 2 ∧
        ([2, 0] : List ℕ).Nodup ∧
        ∀ i ∈ ([2, 0] : List ℕ), i < ([10, 20, 30] : List ℕ).length) ∧
      ∃ idxs : List ℕ,
        random_combination ([10, 20, 30] : List ℕ) 2 [2, 0] =
          .ok (idxs.map (fun i => ([10, 20, 30] : List ℕ).getD i default)) ∧
        idxs.length = 2 ∧
        (idxs.map (fun i => ([10, 20, 30] : List ℕ).getD i default)).length = 2 ∧
        idxs.Pairwise (· < ·) ∧
        (∀ i ∈ idxs, i < ([10, 20, 30] : List ℕ).length) ∧
        idxs.Perm [2, 0] :=
  ⟨⟨by decide, by decide, by decide, by decide⟩,
    c7_random_combination_distinct_ascending [10, 20, 30] 2 [2, 0]
      (by decide) (by decide) (by decide) (by decide)⟩

/-- C10: tournament selection (`sorted(sample, key=lambda i: i[0])[-1]`,
embedded as the last element of the stable ascending sort `pySorted` by the
first component) is a deterministic function of the drawn sample: the chosen
entry attains the maximum validation accuracy of the sample, and among the
entries tied for that maximum it is the one occurring latest in the sample's
order (the last element of the filtered sample). -/
theorem c10_tournament_selection_latest_tied_max {σ : Type}
    (sample : List (ℚ × σ)) (hne : sample ≠ []) :
    ∃ e : ℚ × σ,
      (pySorted (fun x : ℚ × σ => x.1) sample).getLast? = some e ∧
      (∀ x ∈ sample, x.1 ≤ e.1) ∧
      (sample.filter (fun x => decide (x.1 = e.1))).getLast? = some e := by
  have hperm := pySorted_perm (fun x : ℚ × σ => x.1) sample
  have hsne : pySorted (fun x : ℚ × σ => x.1) sample ≠ [] := by
    intro h0
    rw [h0] at hperm
    exact hne hperm.nil_eq.symm
  obtain ⟨e, he⟩ : ∃ e, (pySorted (fun x : ℚ × σ => x.1) sample).getLast? = some e := by
    cases h : (pySorted (fun x : ℚ × σ => x.1) sample).getLast? with
    | none => exact absurd (List.getLast?_eq_none_iff.mp h) hsne
    | some e => exact ⟨e, rfl⟩
  refine ⟨e, he, ?_, ?_⟩
  · intro x hx
    exact key_le_getLast (fun x : ℚ × σ => x.1) _ e
      (pairwise_pySorted _ _) he x (hperm.mem_iff.mpr hx)
  · have h1 := getLast?_filter (fun x : ℚ × σ => decide (x.1 = e.1))
      (pySorted (fun x : ℚ × σ => x.1) sample) e he (by simp)
    have h2 := filter_pySorted (fun x : ℚ × σ => x.1) e.1 sample
    rw [h2] at h1
    exact h1

/-! ### Analysis of `random_spec` and `mutate_spec` -/

/-- The ops list built by one `mutateAttempt`. -/
theorem mutateAttempt_ops (old_spec : ModelSpec) (available_ops : List String)
    (mutation_rate : ℚ) (r : MutationRand) :
    (mutateAttempt old_spec available_ops mutation_rate r).ops =
      (List.range' 1 (NUM_VERTICES - 2)).foldl
        (opMutate available_ops mutation_rate r) old_spec.ops := rfl

/-- The matrix built by one `mutateAttempt`. -/
theorem mutateAttempt_matrix (old_spec : ModelSpec) (available_ops : List String)
    (mutation_rate : ℚ) (r : MutationRand) :
    (mutateAttempt old_spec available_ops mutation_rate r).matrix =
      fun src dst =>
        if src < dst ∧ dst < NUM_VERTICES ∧
            r.edge src dst < mutation_rate / (NUM_VERTICES : ℚ) then
          1 - old_spec.matrix src dst
        else old_spec.matrix src dst := rfl

/-- The ops list built by one `randomSpecAttempt`. -/
theorem randomSpecAttempt_ops (rsv : SpecRand) :
    (randomSpecAttempt rsv).ops =
      (((List.range NUM_VERTICES).map
          (fun i => ALLOWED_OPS.getD (rsv.op i % ALLOWED_OPS.length) "")).set 0
          INPUT).set (NUM_VERTICES - 1) OUTPUT := rfl

/-- The matrix built by one `randomSpecAttempt`. -/
theorem randomSpecAttempt_matrix (rsv : SpecRand) :
    (randomSpecAttempt rsv).matrix =
      fun i j => if i < j ∧ j < NUM_VERTICES then (rsv.edge i j : ℕ) else 0 := rfl

/-- One op-mutation step preserves the length of the ops list. -/
theorem opMutate_length (available_ops : List String) (mutation_rate : ℚ)
    (r : MutationRand) (ops : List String) (ind : ℕ) :
    (opMutate available_ops mutation_rate r ops ind).length = ops.length := by
  unfold opMutate
  split
  · exact List.length_set ops ind _
  · rfl

/-- The op-mutation loop preserves the length of the ops list. -/
theorem foldl_opMutate_length (available_ops : List String) (mutation_rate : ℚ)
    (r : MutationRand) :
    ∀ (l : List ℕ) (ops : List String),
      (l.foldl (opMutate available_ops mutation_rate r) ops).length =
        ops.length := by
  intro l
  induction l with
  | nil => intro ops; rfl
  | cons i l ih =>
    intro ops
    rw [List.foldl_cons, ih, opMutate_length]

/-- One op-mutation step leaves every other index unchanged. -/
theorem opMutate_getD_ne (available_ops : List String) (mutation_rate : ℚ)
    (r : MutationRand) (ops : List String) {i j : ℕ} (hij : i ≠ j)
    (d : String) :
    (opMutate available_ops mutation_rate r ops i).getD j d = ops.getD j d := by
  unfold opMutate
  split
  · simp only [List.getD_eq_getElem?_getD, List.getElem?_set_ne hij]
  · rfl

/-- The op-mutation loop leaves untouched indices unchanged. -/
theorem foldl_opMutate_getD_ne (available_ops : List String)
    (mutation_rate : ℚ) (r : MutationRand) :
    ∀ (l : List ℕ) (ops : List String) (j : ℕ) (d : String),
      (∀ i ∈ l, i ≠ j) →
      (l.foldl (opMutate available_ops mutation_rate r) ops).getD j d =
        ops.getD j d := by
  intro l
  induction l with
  | nil => intro ops j d _; rfl
  | cons i l ih =>
    intro ops j d hmem
    rw [List.foldl_cons,
      ih _ j d (fun x hx => hmem x (List.mem_cons_of_mem _ hx)),
      opMutate_getD_ne available_ops mutation_rate r ops
        (hmem i (List.mem_cons_self i l)) d]

/-- Value of the op-mutation loop at an index visited exactly once: the
operation is resampled from the availables excluding its current (original)
value exactly when the index's draw is below the mutation probability. -/
theorem foldl_opMutate_getD_split (available_ops : List String)
    (mutation_rate : ℚ) (r : MutationRand) (l1 l2 : List ℕ)
    (ops : List String) (ind : ℕ) (h1 : ∀ i ∈ l1, i ≠ ind)
    (h2 : ∀ i ∈ l2, i ≠ ind) (hlt : ind < ops.length) :
    ((l1 ++ ind :: l2).foldl (opMutate available_ops mutation_rate r)
        ops).getD ind "" =
      if r.op ind < mutation_rate / (OP_SPOTS : ℚ) then
        (available_ops.filter (fun o => o ≠ ops.getD ind "")).getD
          (r.choice ind %
            (available_ops.filter (fun o => o ≠ ops.getD ind "")).length) ""
      else ops.getD ind "" := by
  rw [List.foldl_append, List.foldl_cons]
  rw [foldl_opMutate_getD_ne available_ops mutation_rate r l2 _ ind "" h2]
  have hsame : (l1.foldl (opMutate available_ops mutation_rate r) ops).getD
      ind "" = ops.getD ind "" :=
    foldl_opMutate_getD_ne available_ops mutation_rate r l1 ops ind "" h1
  have hlen1 : (l1.foldl (opMutate available_ops mutation_rate r)
      ops).length = ops.length :=
    foldl_opMutate_length available_ops mutation_rate r l1 ops
  rw [opMutate]
  split
  · rw [hsame, List.getD_eq_getElem?_getD,
      List.getElem?_set_self (by rw [hlen1]; exact hlt)]
    rfl
  · exact hsame

/-- An element fetched from a nonempty list at a modular index is a member of
the list (the shallow form of `random.choice`). -/
theorem getD_mem_of_ne_nil {l : List String} (hl : l ≠ []) (i : ℕ) :
    l.getD (i % l.length) "" ∈ l := by
  have hpos : 0 < l.length := List.length_pos.mpr hl
  have hlt : i % l.length < l.length := Nat.mod_lt _ hpos
  rw [List.getD_eq_getElem?_getD, List.getElem?_eq_getElem hlt]
  exact List.getElem_mem hlt

/-- For every current operation, the `ALLOWED_OPS` vocabulary minus that
operation is nonempty (it has three distinct entries). -/
theorem allowed_ops_filter_ne (cur : String) :
    ALLOWED_OPS.filter (fun o => o ≠ cur) ≠ [] := by
  intro h0
  rw [List.filter_eq_nil_iff] at h0
  have ha := h0 CONV3X3 (by decide)
  have hb := h0 CONV1X1 (by decide)
  simp only [ne_eq, decide_not, Bool.not_eq_true', decide_eq_false_iff_not,
    Decidable.not_not] at ha hb
  exact absurd (ha.trans hb.symm) (by decide)

/-- Value of a full `mutateAttempt` at an interior vertex. -/
theorem mutateAttempt_ops_getD (old_spec : ModelSpec)
    (available_ops : List String) (mutation_rate : ℚ) (r : MutationRand)
    (ind : ℕ) (h1 : 1 ≤ ind) (h2 : ind < NUM_VERTICES - 1)
    (hlen : old_spec.ops.length = NUM_VERTICES) :
    (mutateAttempt old_spec available_ops mutation_rate r).ops.getD ind "" =
      if r.op ind < mutation_rate / (OP_SPOTS : ℚ) then
        (available_ops.filter (fun o => o ≠ old_spec.ops.getD ind "")).getD
          (r.choice ind %
            (available_ops.filter
              (fun o => o ≠ old_spec.ops.getD ind "")).length) ""
      else old_spec.ops.getD ind "" := by
  have hlt : ind < old_spec.ops.length := by
    rw [hlen]
    show ind < 7
    have h2' : ind < 6 := h2
    omega
  rw [mutateAttempt_ops]
  have h2' : ind < 6 := h2
  interval_cases ind
  · rw [show List.range' 1 (NUM_VERTICES - 2) = [] ++ 1 :: [2, 3, 4, 5] from rfl]
    exact foldl_opMutate_getD_split available_ops mutation_rate r [] [2, 3, 4, 5]
      old_spec.ops 1 (by decide) (by decide) hlt
  · rw [show List.range' 1 (NUM_VERTICES - 2) = [1] ++ 2 :: [3, 4, 5] from rfl]
    exact foldl_opMutate_getD_split available_ops mutation_rate r [1] [3, 4, 5]
      old_spec.ops 2 (by decide) (by decide) hlt
  · rw [show List.range' 1 (NUM_VERTICES - 2) = [1, 2] ++ 3 :: [4, 5] from rfl]
    exact foldl_opMutate_getD_split available_ops mutation_rate r [1, 2] [4, 5]
      old_spec.ops 3 (by decide) (by decide) hlt
  · rw [show List.range' 1 (NUM_VERTICES - 2) = [1, 2, 3] ++ 4 :: [5] from rfl]
    exact foldl_opMutate_getD_split available_ops mutation_rate r [1, 2, 3] [5]
      old_spec.ops 4 (by decide) (by decide) hlt
  · rw [show List.range' 1 (NUM_VERTICES - 2) = [1, 2, 3, 4] ++ 5 :: [] from rfl]
    exact foldl_opMutate_getD_split available_ops mutation_rate r [1, 2, 3, 4] []
      old_spec.ops 5 (by decide) (by decide) hlt

section

attribute [local semireducible] Rat.add Rat.mul Rat.inv Rat.sub

/-- C1 counterexample: the claim asserts that `best_tests` is monotonically
non-decreasing for every trajectory returned by `run_revolution_search`, but
a run against `c1Env` (second query improves validation while test accuracy
drops from 9/10 to 1/10) returns the best-tests trajectory
`[0, 9/10, 1/10]`, which decreases. -/
theorem c1_counterexample :
    run_revolution_search c1Env 0 1 1 1 =
      some (.ok ([0, 1, 2], [0, 1/2, 3/4], [0, 9/10, 1/10])) ∧
    ¬ ([0, 9/10, 1/10] : List ℚ).Chain' (· ≤ ·) :=
  ⟨by decide, by norm_num [List.chain'_cons]⟩

/-- C1 (amended): for every trajectory returned by `run_revolution_search`,
the `best_valids` sequence is monotonically non-decreasing; the `best_tests`
sequence records the test accuracy of whichever spec achieved the current
best validation and need not be non-decreasing. -/
theorem c1_best_valids_monotone {σ : Type} [Inhabited σ] (env : SearchEnv σ)
    (budget : ℚ) (ps tour fuel : ℕ) (ts bv bt : List ℚ)
    (h : run_revolution_search env budget ps tour fuel = some (.ok (ts, bv, bt))) :
    bv.Chain' (· ≤ ·) := by
  unfold run_revolution_search at h
  split at h
  · exact Option.noConfusion h
  · injection h with h'
    exact Except.noConfusion h'
  · rename_i st hl
    injection h with h'
    injection h' with h''
    injection h'' with hts hrest
    injection hrest with hbv hbt
    subst hbv
    have hseed : (seedPhase env budget ps (initState σ)).best_valids.Chain' (· ≤ ·) :=
      seedPhase_chain env budget ps (initState σ) (List.chain'_singleton 0)
    exact evolveLoop_preserves (fun x => x.best_valids.Chain' (· ≤ ·))
      (fun s2 t s3 hs hP => by
        obtain ⟨-, -, -, -, s, hbv', -, -⟩ := evolveStep_ok_dest hs
        rw [hbv']
        exact chain_append_carry _ _ hP)
      fuel _ st hl hseed

/-- C1 witness: the amended theorem applied to the concrete run against
`c1Env`. -/
theorem c1_witness :
    run_revolution_search c1Env 0 1 1 1 =
      some (.ok ([0, 1, 2], [0, 1/2, 3/4], [0, 9/10, 1/10])) ∧
    ([0, 1/2, 3/4] : List ℚ).Chain' (· ≤ ·) :=
  ⟨by decide,
    c1_best_valids_monotone c1Env 0 1 1 1 [0, 1, 2] [0, 1/2, 3/4]
      [0, 9/10, 1/10] (by decide)⟩

/-- C2 counterexample: in the spec's own end-to-end scenario
(`population_size = 5`, `tournament_size = 3`, budget consumed after 10
queries against `c2Env`) every returned sequence has 11 entries — the
initial `0.0` plus one per query — not 10 as the claim states. -/
theorem c2_counterexample :
    run_revolution_search c2Env (19/2) 5 3 5 = some (.ok
      ([0, 1, 2, 3, 4, 5, 6, 7, 8, 9, 10],
       [0, 1/100, 2/100, 3/100, 4/100, 5/100, 6/100, 7/100, 8/100, 9/100, 10/100],
       [0, 1/100, 2/100, 3/100, 4/100, 5/100, 6/100, 7/100, 8/100, 9/100, 10/100])) ∧
    ¬ (([0, 1/100, 2/100, 3/100, 4/100, 5/100, 6/100, 7/100, 8/100, 9/100,
        10/100] : List ℚ).length = 10) :=
  ⟨by decide, by decide⟩

/-- C2 (amended): the three trajectory sequences always have equal lengths,
gaining exactly one entry per oracle query on top of the initial `0.0`
sentinel; in the 10-query scenario each returned sequence has exactly 11
entries and the final best-validation value equals the maximum validation
accuracy among the 10 queries. -/
theorem c2_one_entry_per_query {σ : Type} [Inhabited σ] (env : SearchEnv σ)
    (budget : ℚ) (ps tour fuel : ℕ) (ts bv bt : List ℚ)
    (h : run_revolution_search env budget ps tour fuel = some (.ok (ts, bv, bt))) :
    (ts.length = bv.length ∧ bv.length = bt.length) ∧
    run_revolution_search c2Env (19/2) 5 3 5 = some (.ok
      ([0, 1, 2, 3, 4, 5, 6, 7, 8, 9, 10],
       [0, 1/100, 2/100, 3/100, 4/100, 5/100, 6/100, 7/100, 8/100, 9/100, 10/100],
       [0, 1/100, 2/100, 3/100, 4/100, 5/100, 6/100, 7/100, 8/100, 9/100, 10/100])) ∧
    ([0, 1/100, 2/100, 3/100, 4/100, 5/100, 6/100, 7/100, 8/100, 9/100,
      10/100] : List ℚ).length = 11 ∧
    ([0, 1/100, 2/100, 3/100, 4/100, 5/100, 6/100, 7/100, 8/100, 9/100,
      10/100] : List ℚ).getLastD 0 =
      ((List.range 10).map (fun q => c2Env.queryValid q ())).foldr max 0 := by
  refine ⟨?_, by decide, by decide, by decide⟩
  unfold run_revolution_search at h
  split at h
  · exact Option.noConfusion h
  · injection h with h'
    exact Except.noConfusion h'
  · rename_i st hl
    injection h with h'
    injection h' with h''
    injection h'' with hts hrest
    injection hrest with hbv hbt
    subst hts
    subst hbv
    subst hbt
    have hseed := seedPhase_len_eq env budget ps (initState σ) rfl rfl
    exact evolveLoop_preserves
      (fun x => x.times.length = x.best_valids.length ∧
        x.best_valids.length = x.best_tests.length)
      (fun s2 t s3 hs hP => by
        obtain ⟨-, -, -, ht1, s, hbv', hbt', -⟩ := evolveStep_ok_dest hs
        constructor
        · rw [ht1, hbv', List.length_append, List.length_append,
            List.length_singleton, List.length_singleton, hP.1]
        · rw [hbv', hbt', List.length_append, List.length_append,
            List.length_singleton, List.length_singleton, hP.2])
      fuel _ st hl hseed

/-- C2 witness: the amended theorem applied to the concrete 10-query run. -/
theorem c2_witness :
    run_revolution_search c2Env (19/2) 5 3 5 = some (.ok
      ([0, 1, 2, 3, 4, 5, 6, 7, 8, 9, 10],
       [0, 1/100, 2/100, 3/100, 4/100, 5/100, 6/100, 7/100, 8/100, 9/100, 10/100],
       [0, 1/100, 2/100, 3/100, 4/100, 5/100, 6/100, 7/100, 8/100, 9/100, 10/100])) ∧
    ((([0, 1, 2, 3, 4, 5, 6, 7, 8, 9, 10] : List ℚ).length =
        ([0, 1/100, 2/100, 3/100, 4/100, 5/100, 6/100, 7/100, 8/100, 9/100,
          10/100] : List ℚ).length ∧
      ([0, 1/100, 2/100, 3/100, 4/100, 5/100, 6/100, 7/100, 8/100, 9/100,
        10/100] : List ℚ).length =
        ([0, 1/100, 2/100, 3/100, 4/100, 5/100, 6/100, 7/100, 8/100, 9/100,
          10/100] : List ℚ).length) ∧
      run_revolution_search c2Env (19/2) 5 3 5 = some (.ok
        ([0, 1, 2, 3, 4, 5, 6, 7, 8, 9, 10],
         [0, 1/100, 2/100, 3/100, 4/100, 5/100, 6/100, 7/100, 8/100, 9/100, 10/100],
         [0, 1/100, 2/100, 3/100, 4/100, 5/100, 6/100, 7/100, 8/100, 9/100, 10/100])) ∧
      ([0, 1/100, 2/100, 3/100, 4/100, 5/100, 6/100, 7/100, 8/100, 9/100,
        10/100] : List ℚ).length = 11 ∧
      ([0, 1/100, 2/100, 3/100, 4/100, 5/100, 6/100, 7/100, 8/100, 9/100,
        10/100] : List ℚ).getLastD 0 =
        ((List.range 10).map (fun q => c2Env.queryValid q ())).foldr max 0) :=
  ⟨by decide,
    c2_one_entry_per_query c2Env (19/2) 5 3 5
      [0, 1, 2, 3, 4, 5, 6, 7, 8, 9, 10]
      [0, 1/100, 2/100, 3/100, 4/100, 5/100, 6/100, 7/100, 8/100, 9/100, 10/100]
      [0, 1/100, 2/100, 3/100, 4/100, 5/100, 6/100, 7/100, 8/100, 9/100, 10/100]
      (by decide)⟩

/-- C4: after the seed phase the population length never exceeds
`population_size`; every successful evolution step appends exactly one new
(validation, spec) entry, removes exactly the oldest entry (index 0), and so
keeps the population length invariant, as does every successful run of the
whole evolution loop. -/
theorem c4_population_bounded_fifo {σ : Type} [Inhabited σ] (env : SearchEnv σ)
    (budget : ℚ) (ps tour : ℕ)
    (hS : ∀ q n k, (env.sample q n k).length = k) :
    (seedPhase env budget ps (initState σ)).population.length ≤ ps ∧
    (∀ (st : SearchState σ) (t : ℚ) (st₁ : SearchState σ),
      evolveStep env tour st = .ok (t, st₁) →
      ∃ e : ℚ × σ, e.1 = env.queryValid st.qcount e.2 ∧
        st₁.population = st.population.tail ++ [e] ∧
        st₁.population.length = st.population.length) ∧
    (∀ (fuel : ℕ) (st st' : SearchState σ),
      evolveLoop env budget tour fuel st = some (.ok st') →
      st'.population.length = st.population.length) := by
  refine ⟨?_, ?_, ?_⟩
  · have h := seedPhase_pop_len env budget ps (initState σ)
    simpa [initState] using h
  · intro st t st₁ h
    obtain ⟨hk, -, -, -, s, -, -, hp⟩ := evolveStep_ok_dest h
    obtain ⟨htour, hne⟩ := evolveStep_ok_tour_pos (hS _ _ _) h
    refine ⟨(env.queryValid st.qcount s, s), rfl, ?_, ?_⟩
    · rw [hp]
      rcases hpop : st.population with _ | ⟨a, l⟩
      · exact absurd hpop hne
      · rfl
    · rw [hp, List.length_tail, List.length_append, List.length_singleton]
      omega
  · intro fuel st st' hloop
    exact evolveLoop_preserves
      (fun x => x.population.length = st.population.length)
      (fun s2 t s3 hs hP => by
        obtain ⟨-, -, -, -, s, -, -, hp⟩ := evolveStep_ok_dest hs
        rw [hp, List.length_tail, List.length_append, List.length_singleton]
        omega)
      fuel st st' hloop rfl

/-- C4 witness: the theorem applied to the stub environment `c1Env`. -/
theorem c4_witness :
    (∀ q n k, (c1Env.sample q n k).length = k) ∧
    ((seedPhase c1Env 0 3 (initState Unit)).population.length ≤ 3 ∧
     (∀ (st : SearchState Unit) (t : ℚ) (st₁ : SearchState Unit),
        evolveStep c1Env 2 st = .ok (t, st₁) →
        ∃ e : ℚ × Unit, e.1 = c1Env.queryValid st.qcount e.2 ∧
          st₁.population = st.population.tail ++ [e] ∧
          st₁.population.length = st.population.length) ∧
     (∀ (fuel : ℕ) (st st' : SearchState Unit),
        evolveLoop c1Env 0 2 fuel st = some (.ok st') →
        st'.population.length = st.population.length)) :=
  ⟨fun _ _ k => List.length_range k,
    c4_population_bounded_fifo c1Env 0 3 2 (fun _ _ k => List.length_range k)⟩

/-- C9: if the seed phase aborts early leaving fewer than `tournament_size`
population entries, the first evolution step's `random.sample(range(n), k)`
has `k > n` and raises ValueError, so the run raises instead of returning a
trajectory. -/
theorem c9_early_abort_value_error {σ : Type} [Inhabited σ] (env : SearchEnv σ)
    (budget : ℚ) (ps tour fuel : ℕ)
    (h1 : (seedPhase env budget ps (initState σ)).population.length < tour)
    (hf : 1 ≤ fuel) :
    run_revolution_search env budget ps tour fuel =
      some (.error .valueError) := by
  obtain ⟨m, rfl⟩ : ∃ m, fuel = m + 1 := ⟨fuel - 1, by omega⟩
  have hstep : evolveStep env tour (seedPhase env budget ps (initState σ)) =
      .error .valueError := by
    unfold evolveStep
    rw [random_combination_gt _ _ _ h1]
  have hloop : evolveLoop env budget tour (m + 1)
      (seedPhase env budget ps (initState σ)) = some (.error .valueError) := by
    rw [evolveLoop, hstep]
  unfold run_revolution_search
  rw [hloop]

/-- C9 witness: the theorem applied to `c1Env` with budget 0, so the seed
phase aborts after one query, leaving one entry while the tournament needs
two. -/
theorem c9_witness :
    ((seedPhase c1Env 0 3 (initState Unit)).population.length < 2 ∧ 1 ≤ 1) ∧
    run_revolution_search c1Env 0 3 2 1 = some (.error .valueError) :=
  ⟨⟨by decide, by decide⟩,
    c9_early_abort_value_error c1Env 0 3 2 1 (by decide) (by decide)⟩

/-- C3: when the oracle's reported cumulative time eventually exceeds the
budget, and the tournament is nonempty and fits in the seeded population,
`run_revolution_search` terminates: there is a fuel making the loop return,
the evolution phase stops right after the first evolution-phase query `j`
whose reported time exceeds the budget (all earlier evolution queries stayed
within it), at least one evolution step runs past the seed phase
(`j + 1 ≥ seed queries + 1`), the seed phase performs at most
`population_size` queries with every seed query but possibly its last within
budget, and it stops short of `population_size` only when its last query
exceeded the budget. -/
theorem c3_stops_at_first_excess {σ : Type} [Inhabited σ] (env : SearchEnv σ)
    (budget : ℚ) (ps tour N : ℕ)
    (hS : ∀ q n k, (env.sample q n k).length = k)
    (h1 : 1 ≤ tour)
    (h2 : tour ≤ (seedPhase env budget ps (initState σ)).population.length)
    (hB : ∀ i, N ≤ i → budget < env.timeAfter i) :
    ∃ (fuel j : ℕ) (ts bv bt : List ℚ),
      run_revolution_search env budget ps tour fuel = some (.ok (ts, bv, bt)) ∧
      ts.length = j + 2 ∧
      (seedPhase env budget ps (initState σ)).qcount ≤ j ∧
      budget < env.timeAfter j ∧
      (∀ i, (seedPhase env budget ps (initState σ)).qcount ≤ i → i < j →
        env.timeAfter i ≤ budget) ∧
      (seedPhase env budget ps (initState σ)).qcount + 1 ≤ j + 1 ∧
      (seedPhase env budget ps (initState σ)).qcount ≤ ps ∧
      (∀ k, k + 1 < (seedPhase env budget ps (initState σ)).qcount →
        env.timeAfter k ≤ budget) ∧
      ((seedPhase env budget ps (initState σ)).qcount < ps →
        0 < (seedPhase env budget ps (initState σ)).qcount ∧
        budget < env.timeAfter
          ((seedPhase env budget ps (initState σ)).qcount - 1)) := by
  set s := seedPhase env budget ps (initState σ) with hsdef
  have hex : ∃ j, s.qcount ≤ j ∧ budget < env.timeAfter j :=
    ⟨max N s.qcount, le_max_right _ _, hB _ (le_max_left _ _)⟩
  have hjp := Nat.find_spec hex
  have hjmin : ∀ i, s.qcount ≤ i → i < Nat.find hex → env.timeAfter i ≤ budget := by
    intro i hi hij
    have hm := Nat.find_min hex hij
    push_neg at hm
    exact hm hi
  have hq0 : s.qcount ≤ ps := by
    have h := (seedPhase_qcount_le env budget ps (initState σ)).2
    rw [← hsdef] at h
    simpa [initState] using h
  have htb : ∀ k, k + 1 < s.qcount → env.timeAfter k ≤ budget := by
    intro k hk
    exact seedPhase_time_bounds env budget ps (initState σ) k (Nat.zero_le k)
      (by rw [← hsdef]; exact hk)
  have hab : s.qcount < ps →
      0 < s.qcount ∧ budget < env.timeAfter (s.qcount - 1) := by
    intro hlt
    have h := seedPhase_early_abort env budget ps (initState σ)
      (by rw [← hsdef]; simpa [initState] using hlt)
    rw [← hsdef] at h
    simpa [initState] using h
  have hstl : s.times.length = s.qcount + 1 := by
    have h := seedPhase_times_len env budget ps (initState σ) rfl
    rw [← hsdef] at h
    exact h
  obtain ⟨st', hloop, hq', htl'⟩ := evolveLoop_stops env budget tour hS h1
    (Nat.find hex) (Nat.find hex + 1 - s.qcount) s (by omega) h2 hjp.1 hjmin
    hjp.2 hstl
  refine ⟨Nat.find hex + 1 - s.qcount, Nat.find hex, st'.times, st'.best_valids,
    st'.best_tests, ?_, htl', hjp.1, hjp.2, hjmin, by omega, hq0, htb, hab⟩
  unfold run_revolution_search
  rw [← hsdef, hloop]

/-- C3 witness: the theorem applied to `c1Env` (whose time after query `i` is
`i + 1`) with budget 2, one seed, a one-entry tournament, and `N = 2`. -/
theorem c3_witness :
    ((∀ q n k, (c1Env.sample q n k).length = k) ∧ 1 ≤ 1 ∧
      1 ≤ (seedPhase c1Env 2 1 (initState Unit)).population.length ∧
      (∀ i, 2 ≤ i → (2:ℚ) < c1Env.timeAfter i)) ∧
    ∃ (fuel j : ℕ) (ts bv bt : List ℚ),
      run_revolution_search c1Env 2 1 1 fuel = some (.ok (ts, bv, bt)) ∧
      ts.length = j + 2 ∧
      (seedPhase c1Env 2 1 (initState Unit)).qcount ≤ j ∧
      (2:ℚ) < c1Env.timeAfter j ∧
      (∀ i, (seedPhase c1Env 2 1 (initState Unit)).qcount ≤ i → i < j →
        c1Env.timeAfter i ≤ 2) ∧
      (seedPhase c1Env 2 1 (initState Unit)).qcount + 1 ≤ j + 1 ∧
      (seedPhase c1Env 2 1 (initState Unit)).qcount ≤ 1 ∧
      (∀ k, k + 1 < (seedPhase c1Env 2 1 (initState Unit)).qcount →
        c1Env.timeAfter k ≤ 2) ∧
      ((seedPhase c1Env 2 1 (initState Unit)).qcount < 1 →
        0 < (seedPhase c1Env 2 1 (initState Unit)).qcount ∧
        (2:ℚ) < c1Env.timeAfter
          ((seedPhase c1Env 2 1 (initState Unit)).qcount - 1)) :=
  ⟨⟨fun _ _ k => List.length_range k, le_refl 1, by decide,
    fun i hi => by
      show (2:ℚ) < (i : ℚ) + 1
      have hc : (2:ℚ) ≤ (i : ℚ) := by exact_mod_cast hi
      linarith⟩,
    c3_stops_at_first_excess c1Env 2 1 1 2
      (fun _ _ k => List.length_range k) (le_refl 1) (by decide)
      (fun i hi => by
        show (2:ℚ) < (i : ℚ) + 1
        have hc : (2:ℚ) ≤ (i : ℚ) := by exact_mod_cast hi
        linarith)⟩

/-- C5: `mutate_spec` returns the first attempt the oracle's validity
predicate accepts (so its result is always oracle-valid), where each attempt
restarts from the unmutated parent and independently: flips each of the 21
strict-upper-triangle edges exactly when its uniform draw is below
`mutation_rate / NUM_VERTICES` (`NUM_VERTICES = 7`), leaves all other matrix
entries unchanged, and for each interior vertex, exactly when its uniform
draw is below `mutation_rate / OP_SPOTS` (`OP_SPOTS = 5`), resamples its
operation by a uniform `random.choice` from the available operations
excluding the vertex's current one. -/
theorem c5_mutate_spec_structure (old_spec : ModelSpec)
    (available_ops : List String) (mutation_rate : ℚ)
    (is_valid : ModelSpec → Bool) (r : ℕ → MutationRand)
    (h : ∃ n, is_valid
      (mutateAttempt old_spec available_ops mutation_rate (r n)) = true)
    (hlen : old_spec.ops.length = NUM_VERTICES)
    (hA : ∀ cur : String, available_ops.filter (fun o => o ≠ cur) ≠ []) :
    is_valid (mutate_spec old_spec available_ops is_valid mutation_rate r h) =
      true ∧
    mutate_spec old_spec available_ops is_valid mutation_rate r h =
      mutateAttempt old_spec available_ops mutation_rate (r (Nat.find h)) ∧
    (∀ m, m < Nat.find h →
      is_valid (mutateAttempt old_spec available_ops mutation_rate (r m)) =
        false) ∧
    (Finset.univ.filter
      (fun p : Fin NUM_VERTICES × Fin NUM_VERTICES => p.1 < p.2)).card = 21 ∧
    (∀ (rr : MutationRand) (src dst : ℕ), src < dst → dst < NUM_VERTICES →
      (mutateAttempt old_spec available_ops mutation_rate rr).matrix src dst =
        if rr.edge src dst < mutation_rate / (NUM_VERTICES : ℚ)
        then 1 - old_spec.matrix src dst else old_spec.matrix src dst) ∧
    (∀ (rr : MutationRand) (src dst : ℕ), ¬ (src < dst ∧ dst < NUM_VERTICES) →
      (mutateAttempt old_spec available_ops mutation_rate rr).matrix src dst =
        old_spec.matrix src dst) ∧
    (∀ (rr : MutationRand) (ind : ℕ), 1 ≤ ind → ind < NUM_VERTICES - 1 →
      (rr.op ind < mutation_rate / (OP_SPOTS : ℚ) →
        (mutateAttempt old_spec available_ops mutation_rate rr).ops.getD ind ""
          ∈ available_ops.filter (fun o => o ≠ old_spec.ops.getD ind "")) ∧
      (¬ rr.op ind < mutation_rate / (OP_SPOTS : ℚ) →
        (mutateAttempt old_spec available_ops mutation_rate rr).ops.getD ind ""
          = old_spec.ops.getD ind "")) := by
  refine ⟨Nat.find_spec h, rfl, ?_, by decide, ?_, ?_, ?_⟩
  · intro m hm
    have hmin := Nat.find_min h hm
    simpa using hmin
  · intro rr src dst hsd hdv
    rw [mutateAttempt_matrix]
    dsimp only
    by_cases h3 : rr.edge src dst < mutation_rate / (NUM_VERTICES : ℚ)
    · rw [if_pos ⟨hsd, hdv, h3⟩, if_pos h3]
    · rw [if_neg (fun hc => h3 hc.2.2), if_neg h3]
  · intro rr src dst hno
    rw [mutateAttempt_matrix]
    dsimp only
    exact if_neg (fun hc => hno ⟨hc.1, hc.2.1⟩)
  · intro rr ind hi1 hi2
    constructor
    · intro hlow
      rw [mutateAttempt_ops_getD old_spec available_ops mutation_rate rr ind
        hi1 hi2 hlen, if_pos hlow]
      exact getD_mem_of_ne_nil (hA _) _
    · intro hlow
      rw [mutateAttempt_ops_getD old_spec available_ops mutation_rate rr ind
        hi1 hi2 hlen, if_neg hlow]

/-- C5 witness: the theorem applied to the concrete parent `sampleParent`
with the `ALLOWED_OPS` vocabulary and an always-true validity predicate. -/
theorem c5_witness :
    (sampleParent.ops.length = NUM_VERTICES ∧
      (∀ cur : String, ALLOWED_OPS.filter (fun o => o ≠ cur) ≠ [])) ∧
    ((fun _ : ModelSpec => true)
        (mutate_spec sampleParent ALLOWED_OPS (fun _ => true) 1 sampleMutRand
          sampleMutH) = true ∧
      mutate_spec sampleParent ALLOWED_OPS (fun _ => true) 1 sampleMutRand
          sampleMutH =
        mutateAttempt sampleParent ALLOWED_OPS 1
          (sampleMutRand (Nat.find sampleMutH)) ∧
      (∀ m, m < Nat.find sampleMutH →
        (fun _ : ModelSpec => true)
          (mutateAttempt sampleParent ALLOWED_OPS 1 (sampleMutRand m)) =
            false) ∧
      (Finset.univ.filter
        (fun p : Fin NUM_VERTICES × Fin NUM_VERTICES => p.1 < p.2)).card = 21 ∧
      (∀ (rr : MutationRand) (src dst : ℕ), src < dst → dst < NUM_VERTICES →
        (mutateAttempt sampleParent ALLOWED_OPS 1 rr).matrix src dst =
          if rr.edge src dst < 1 / (NUM_VERTICES : ℚ)
          then 1 - sampleParent.matrix src dst
          else sampleParent.matrix src dst) ∧
      (∀ (rr : MutationRand) (src dst : ℕ),
        ¬ (src < dst ∧ dst < NUM_VERTICES) →
        (mutateAttempt sampleParent ALLOWED_OPS 1 rr).matrix src dst =
          sampleParent.matrix src dst) ∧
      (∀ (rr : MutationRand) (ind : ℕ), 1 ≤ ind → ind < NUM_VERTICES - 1 →
        (rr.op ind < 1 / (OP_SPOTS : ℚ) →
          (mutateAttempt sampleParent ALLOWED_OPS 1 rr).ops.getD ind ""
            ∈ ALLOWED_OPS.filter
                (fun o => o ≠ sampleParent.ops.getD ind "")) ∧
        (¬ rr.op ind < 1 / (OP_SPOTS : ℚ) →
          (mutateAttempt sampleParent ALLOWED_OPS 1 rr).ops.getD ind ""
            = sampleParent.ops.getD ind ""))) :=
  ⟨⟨by decide, allowed_ops_filter_ne⟩,
    c5_mutate_spec_structure sampleParent ALLOWED_OPS 1 (fun _ => true)
      sampleMutRand sampleMutH (by decide) allowed_ops_filter_ne⟩

/-- C6: every spec returned by `random_spec`, and every spec returned by
`mutate_spec` from a parent whose ops are the 7 fixed-endpoint operations
and whose matrix is strictly upper-triangular, has the INPUT operation at
the first vertex, the OUTPUT operation at the last vertex, and a strictly
upper-triangular matrix (every entry on or below the diagonal is 0). -/
theorem c6_fixed_io_strict_upper (is_valid : ModelSpec → Bool)
    (rs : ℕ → SpecRand)
    (hrs : ∃ n, is_valid (randomSpecAttempt (rs n)) = true)
    (old_spec : ModelSpec) (available_ops : List String) (mutation_rate : ℚ)
    (rm : ℕ → MutationRand)
    (hm : ∃ n, is_valid
      (mutateAttempt old_spec available_ops mutation_rate (rm n)) = true)
    (hlen : old_spec.ops.length = NUM_VERTICES)
    (h0 : old_spec.ops.getD 0 "" = INPUT)
    (h6 : old_spec.ops.getD (NUM_VERTICES - 1) "" = OUTPUT)
    (hut : ∀ i j, j ≤ i → old_spec.matrix i j = 0) :
    ((random_spec is_valid rs hrs).ops.length = NUM_VERTICES ∧
      (random_spec is_valid rs hrs).ops.getD 0 "" = INPUT ∧
      (random_spec is_valid rs hrs).ops.getD (NUM_VERTICES - 1) "" = OUTPUT ∧
      (∀ i j, j ≤ i → (random_spec is_valid rs hrs).matrix i j = 0)) ∧
    ((mutate_spec old_spec available_ops is_valid mutation_rate rm
        hm).ops.length = NUM_VERTICES ∧
      (mutate_spec old_spec available_ops is_valid mutation_rate rm
        hm).ops.getD 0 "" = INPUT ∧
      (mutate_spec old_spec available_ops is_valid mutation_rate rm
        hm).ops.getD (NUM_VERTICES - 1) "" = OUTPUT ∧
      (∀ i j, j ≤ i →
        (mutate_spec old_spec available_ops is_valid mutation_rate rm
          hm).matrix i j = 0)) := by
  constructor
  · refine ⟨?_, ?_, ?_, ?_⟩
    · show (randomSpecAttempt (rs (Nat.find hrs))).ops.length = NUM_VERTICES
      rw [randomSpecAttempt_ops]
      simp
    · show (randomSpecAttempt (rs (Nat.find hrs))).ops.getD 0 "" = INPUT
      rw [randomSpecAttempt_ops, List.getD_eq_getElem?_getD,
        List.getElem?_set_ne (by decide),
        List.getElem?_set_self (by simp [NUM_VERTICES])]
      rfl
    · show (randomSpecAttempt (rs (Nat.find hrs))).ops.getD
        (NUM_VERTICES - 1) "" = OUTPUT
      rw [randomSpecAttempt_ops, List.getD_eq_getElem?_getD,
        List.getElem?_set_self (by simp [NUM_VERTICES])]
      rfl
    · intro i j hij
      show (randomSpecAttempt (rs (Nat.find hrs))).matrix i j = 0
      rw [randomSpecAttempt_matrix]
      dsimp only
      exact if_neg (fun hc => absurd hc.1 (by omega))
  · refine ⟨?_, ?_, ?_, ?_⟩
    · show (mutateAttempt old_spec available_ops mutation_rate
        (rm (Nat.find hm))).ops.length = NUM_VERTICES
      rw [mutateAttempt_ops, foldl_opMutate_length, hlen]
    · show (mutateAttempt old_spec available_ops mutation_rate
        (rm (Nat.find hm))).ops.getD 0 "" = INPUT
      rw [mutateAttempt_ops,
        foldl_opMutate_getD_ne _ _ _ _ _ 0 "" (by decide), h0]
    · show (mutateAttempt old_spec available_ops mutation_rate
        (rm (Nat.find hm))).ops.getD (NUM_VERTICES - 1) "" = OUTPUT
      rw [mutateAttempt_ops,
        foldl_opMutate_getD_ne _ _ _ _ _ (NUM_VERTICES - 1) "" (by decide), h6]
    · intro i j hij
      show (mutateAttempt old_spec available_ops mutation_rate
        (rm (Nat.find hm))).matrix i j = 0
      rw [mutateAttempt_matrix]
      dsimp only
      rw [if_neg (fun hc => absurd hc.1 (by omega))]
      exact hut i j hij

/-- C6 witness: the theorem applied to the concrete parent and randomness
streams with an always-true validity predicate. -/
theorem c6_witness :
    (sampleParent.ops.length = NUM_VERTICES ∧
      sampleParent.ops.getD 0 "" = INPUT ∧
      sampleParent.ops.getD (NUM_VERTICES - 1) "" = OUTPUT ∧
      (∀ i j, j ≤ i → sampleParent.matrix i j = 0)) ∧
    (((random_spec (fun _ => true) sampleSpecRand sampleSpecH).ops.length =
        NUM_VERTICES ∧
      (random_spec (fun _ => true) sampleSpecRand sampleSpecH).ops.getD 0 "" =
        INPUT ∧
      (random_spec (fun _ => true) sampleSpecRand sampleSpecH).ops.getD
        (NUM_VERTICES - 1) "" = OUTPUT ∧
      (∀ i j, j ≤ i →
        (random_spec (fun _ => true) sampleSpecRand sampleSpecH).matrix i j =
          0)) ∧
     ((mutate_spec sampleParent ALLOWED_OPS (fun _ => true) 1 sampleMutRand
        sampleMutH).ops.length = NUM_VERTICES ∧
      (mutate_spec sampleParent ALLOWED_OPS (fun _ => true) 1 sampleMutRand
        sampleMutH).ops.getD 0 "" = INPUT ∧
      (mutate_spec sampleParent ALLOWED_OPS (fun _ => true) 1 sampleMutRand
        sampleMutH).ops.getD (NUM_VERTICES - 1) "" = OUTPUT ∧
      (∀ i j, j ≤ i →
        (mutate_spec sampleParent ALLOWED_OPS (fun _ => true) 1 sampleMutRand
          sampleMutH).matrix i j = 0))) :=
  ⟨⟨by decide, by decide, by decide, fun i j _ => rfl⟩,
    c6_fixed_io_strict_upper (fun _ => true) sampleSpecRand sampleSpecH
      sampleParent ALLOWED_OPS 1 sampleMutRand sampleMutH (by decide)
      (by decide) (by decide) (fun i j _ => rfl)⟩

/-- Closed form of one driver loop: the event trace is one (reset, run) pair
per iteration, and the accumulators collect the last element of each run's
two trajectories, in run order. -/
theorem runPhase_eq (search : ℕ → List ℚ × List ℚ) (start : ℕ) :
    ∀ n, runPhase search start n =
      ((List.range n).flatMap (fun _ => [OracleEv.reset, OracleEv.run]),
        (List.range n).map (fun i => (search (start + i)).1.getLastD 0),
        (List.range n).map (fun i => (search (start + i)).2.getLastD 0)) := by
  intro n
  induction n with
  | zero => rfl
  | succ m ih =>
    unfold runPhase at ih ⊢
    rw [List.range_succ, List.foldl_append, ih]
    simp

/-- Mapping every element to the same constant block makes `flatMap` depend
only on the list's length. -/
theorem flatMap_const {α β : Type} (c : List β) :
    ∀ l : List α,
      l.flatMap (fun _ => c) = (List.replicate l.length c).flatten := by
  intro l
  induction l with
  | nil => rfl
  | cons a l ih =>
    rw [List.flatMap_cons, ih, List.length_cons, List.replicate_succ,
      List.flatten_cons]

/-- C8: the batch driver performs a `reset_budget_counters` call immediately
before every one of its `n_30 + n_1000` runs, keeps only the last element of
each run's `best_valids` and `best_tests` trajectories, and writes a JSON
object with exactly the four keys `valids_30`, `valids_1000`, `tests_30`,
`tests_1000`, whose values hold one accuracy entry per independent run
(lengths 30, 1000, 30 and 1000 respectively). -/
theorem c8_driver_resets_keys_lengths (search : ℕ → List ℚ × List ℚ) :
    (createRunDataMain search).1 =
      (List.range (n_30 + n_1000)).flatMap
        (fun _ => [OracleEv.reset, OracleEv.run]) ∧
    (createRunDataMain search).2.map Prod.fst =
      ["valids_30", "valids_1000", "tests_30", "tests_1000"] ∧
    (createRunDataMain search).2.map (fun kv => kv.2.length) =
      [30, 1000, 30, 1000] ∧
    (createRunDataMain search).2 =
      [("valids_30", (List.range 30).map (fun i => (search i).1.getLastD 0)),
       ("valids_1000",
         (List.range 1000).map (fun i => (search (30 + i)).1.getLastD 0)),
       ("tests_30", (List.range 30).map (fun i => (search i).2.getLastD 0)),
       ("tests_1000",
         (List.range 1000).map (fun i => (search (30 + i)).2.getLastD 0))] := by
  have h30 := runPhase_eq search 0 n_30
  have h1000 := runPhase_eq search n_30 n_1000
  unfold createRunDataMain
  rw [h30, h1000]
  dsimp only
  refine ⟨?_, rfl, ?_, ?_⟩
  · simp only [flatMap_const, List.length_range, ← List.flatten_append,
      ← List.replicate_add]
  · simp only [List.map_cons, List.map_nil, List.length_map, List.length_range]
    rfl
  · simp only [Nat.zero_add]
    rfl

/-- C10 witness: the theorem applied to a concrete sample with a tie for the
maximum validation accuracy. -/
theorem c10_witness :
    (([((1:ℚ)/2, (7:ℕ)), (1/4, 8), (1/2, 9)] : List (ℚ × ℕ)) ≠ []) ∧
      ∃ e : ℚ × ℕ,
        (pySorted (fun x : ℚ × ℕ => x.1)
            [((1:ℚ)/2, (7:ℕ)), (1/4, 8), (1/2, 9)]).getLast? = some e ∧
        (∀ x ∈ ([((1:ℚ)/2, (7:ℕ)), (1/4, 8), (1/2, 9)] : List (ℚ × ℕ)), x.1 ≤ e.1) ∧
        (([((1:ℚ)/2, (7:ℕ)), (1/4, 8), (1/2, 9)] : List (ℚ × ℕ)).filter
            (fun x => decide (x.1 = e.1))).getLast? = some e :=
  ⟨by decide,
    c10_tournament_selection_latest_tied_max
      [((1:ℚ)/2, (7:ℕ)), (1/4, 8), (1/2, 9)] (by decide)⟩

end

end CreateRunData
